import Mathlib

/-!
Verification of the CPU-side triangle pipeline of `cmd/001-textures/main.go`
(ebiten-kage-playground).

The Go code works on `float32` vectors from mgl32.  The shallow embedding
below replaces `float32` by `ℚ` so that the arithmetic is exact and every
definition is executable.  All structural facts (which vertices are kept,
how many triangles are emitted, how buffers are assembled) are independent
of the numeric representation; numeric facts are proved over `ℚ`.
Go `uint16` arithmetic is modelled as `ℕ` with explicit `% 2 ^ 16`.
-/

/-- mgl32.Vec2, a pair of floats (modelled as rationals). -/
structure Vec2 where
  x : ℚ
  y : ℚ
deriving DecidableEq

/-- mgl32.Vec3. -/
structure Vec3 where
  x : ℚ
  y : ℚ
  z : ℚ
deriving DecidableEq

/-- mgl32.Vec4, a homogeneous clip-space point. -/
structure Vec4 where
  x : ℚ
  y : ℚ
  z : ℚ
  w : ℚ
deriving DecidableEq

namespace Vec2

/-- mgl32 Vec2.Add, componentwise. -/
def add (a b : Vec2) : Vec2 := ⟨a.x + b.x, a.y + b.y⟩

/-- mgl32 Vec2.Mul, scaling by a scalar. -/
def mul (a : Vec2) (c : ℚ) : Vec2 := ⟨a.x * c, a.y * c⟩

/-- The zero vector (the Go zero value of Vec2). -/
def zero : Vec2 := ⟨0, 0⟩

end Vec2

namespace Vec3

/-- mgl32 Vec3.Add. -/
def add (a b : Vec3) : Vec3 := ⟨a.x + b.x, a.y + b.y, a.z + b.z⟩

/-- mgl32 Vec3.Sub. -/
def sub (a b : Vec3) : Vec3 := ⟨a.x - b.x, a.y - b.y, a.z - b.z⟩

/-- mgl32 Vec3.Dot. -/
def dot (a b : Vec3) : ℚ := a.x * b.x + a.y * b.y + a.z * b.z

/-- mgl32 Vec3.Vec4, appending a fourth component. -/
def vec4 (a : Vec3) (w : ℚ) : Vec4 := ⟨a.x, a.y, a.z, w⟩

end Vec3

namespace Vec4

/-- mgl32 Vec4.Add. -/
def add (a b : Vec4) : Vec4 := ⟨a.x + b.x, a.y + b.y, a.z + b.z, a.w + b.w⟩

/-- mgl32 Vec4.Sub. -/
def sub (a b : Vec4) : Vec4 := ⟨a.x - b.x, a.y - b.y, a.z - b.z, a.w - b.w⟩

/-- mgl32 Vec4.Mul, scaling every component by a scalar. -/
def mul (a : Vec4) (c : ℚ) : Vec4 := ⟨a.x * c, a.y * c, a.z * c, a.w * c⟩

/-- mgl32 Vec4.Dot, the full 4-component dot product. -/
def dot (a b : Vec4) : ℚ := a.x * b.x + a.y * b.y + a.z * b.z + a.w * b.w

/-- mgl32 Vec4.Vec3, dropping the w component. -/
def vec3 (a : Vec4) : Vec3 := ⟨a.x, a.y, a.z⟩

/-- The zero vector (the Go zero value of Vec4). -/
def zero : Vec4 := ⟨0, 0, 0, 0⟩

end Vec4

/-- The per-vertex record of `main.go`: homogeneous position plus texture
coordinate. -/
structure vertex where
  position : Vec4
  texcoord : Vec2
deriving DecidableEq

/-- `interpolate_vec4` from `main.go`: starts from the zero value and adds
`v1*f.x + v2*f.y + v3*f.z`. -/
def interpolate_vec4 (v1 v2 v3 : Vec4) (f : Vec3) : Vec4 :=
  ((Vec4.zero.add (v1.mul f.x)).add (v2.mul f.y)).add (v3.mul f.z)

/-- `interpolate_vec2` from `main.go`. -/
def interpolate_vec2 (v1 v2 v3 : Vec2) (f : Vec3) : Vec2 :=
  ((Vec2.zero.add (v1.mul f.x)).add (v2.mul f.y)).add (v3.mul f.z)

/-- `interpolate_vertex` from `main.go`: interpolates position and texcoord
with the same barycentric factor vector. -/
def interpolate_vertex (v1 v2 v3 : vertex) (f : Vec3) : vertex :=
  { position := interpolate_vec4 v1.position v2.position v3.position f
    texcoord := interpolate_vec2 v1.texcoord v2.texcoord v3.texcoord f }

/-- `barycentric` from `main.go`: barycentric coordinates of `p` with
respect to the triangle `p1 p2 p3`, computed on 3-component vectors. -/
def barycentric (p1 p2 p3 p : Vec3) : Vec3 :=
  let v0 := p2.sub p1
  let v1 := p3.sub p1
  let v2 := p.sub p1
  let d00 := v0.dot v0
  let d01 := v0.dot v1
  let d11 := v1.dot v1
  let d20 := v2.dot v0
  let d21 := v2.dot v1
  let d := d00 * d11 - d01 * d01
  let v := (d11 * d20 - d01 * d21) / d
  let w := (d00 * d21 - d01 * d20) / d
  ⟨1 - v - w, v, w⟩

/-- The `plane` type of `main.go`: an origin and a normal in homogeneous
space. -/
structure plane where
  origin : Vec4
  normal : Vec4
deriving DecidableEq

/-- `plane.test` from `main.go`: whether `v` is strictly in front of the
plane. -/
def plane.test (p : plane) (v : Vec4) : Bool :=
  decide (0 < (v.sub p.origin).dot p.normal)

/-- `plane.intersection` from `main.go`: the contact point of the segment
`a → b` with the plane, via an unguarded division by `normal ⬝ (b - a)`. -/
def plane.intersection (p : plane) (a b : Vec4) : Vec4 :=
  let u := b.sub a
  let w := a.sub p.origin
  let d := p.normal.dot u
  let n := -(p.normal.dot w)
  a.add (u.mul (n / d))

/-- The right frustum plane (`x ≤ w` side), first entry of `clip_planes`. -/
def plane_right : plane := { origin := ⟨1, 0, 0, 1⟩, normal := ⟨-1, 0, 0, 1⟩ }

/-- The left frustum plane. -/
def plane_left : plane := { origin := ⟨-1, 0, 0, 1⟩, normal := ⟨1, 0, 0, 1⟩ }

/-- The bottom frustum plane. -/
def plane_bottom : plane := { origin := ⟨0, 1, 0, 1⟩, normal := ⟨0, -1, 0, 1⟩ }

/-- The top frustum plane. -/
def plane_top : plane := { origin := ⟨0, -1, 0, 1⟩, normal := ⟨0, 1, 0, 1⟩ }

/-- The front frustum plane. -/
def plane_front : plane := { origin := ⟨0, 0, 1, 1⟩, normal := ⟨0, 0, -1, 1⟩ }

/-- The back frustum plane. -/
def plane_back : plane := { origin := ⟨0, 0, -1, 1⟩, normal := ⟨0, 0, 1, 1⟩ }

/-- The `clip_planes` array of `main.go`, in source order. -/
def clip_planes : List plane :=
  [plane_right, plane_left, plane_bottom, plane_top, plane_front, plane_back]

/-- The vertices appended to `output` for one edge `(s, e)` of the inner
loop of `sutherland_hodgman_3d`. -/
def clip_edge_out (p : plane) (s e : Vec4) : List Vec4 :=
  if p.test e then
    if p.test s then [e] else [p.intersection s e, e]
  else if p.test s then [p.intersection s e] else []

/-- The inner loop of `sutherland_hodgman_3d` over one plane: walks the
polygon ring, with `s` the previous vertex. -/
def clip_loop (p : plane) : Vec4 → List Vec4 → List Vec4
  | _, [] => []
  | s, e :: rest => clip_edge_out p s e ++ clip_loop p e rest

/-- One pass of `sutherland_hodgman_3d` against a single plane: `s` starts
as the last input vertex. -/
def clip_against_plane (p : plane) (input : List Vec4) : List Vec4 :=
  match input.getLast? with
  | none => []
  | some s0 => clip_loop p s0 input

/-- The outer loop of `sutherland_hodgman_3d`: clip against each plane in
turn, returning nil as soon as the polygon is empty. -/
def sh_planes : List plane → List Vec4 → List Vec4
  | [], out => out
  | pl :: rest, out =>
      if out = [] then [] else sh_planes rest (clip_against_plane pl out)

/-- `sutherland_hodgman_3d` from `main.go`: clips the triangle
`p1 p2 p3` against the six frustum planes. -/
def sutherland_hodgman_3d (p1 p2 p3 : Vec4) : List Vec4 :=
  sh_planes clip_planes [p1, p2, p3]

/-- The pairs `(s, e)` on which the inner loop of `sutherland_hodgman_3d`
invokes `plane.intersection`, mirroring the guards of `clip_edge_out`. -/
def clip_loop_calls (p : plane) : Vec4 → List Vec4 → List (Vec4 × Vec4)
  | _, [] => []
  | s, e :: rest =>
      (if p.test e then
        if p.test s then [] else [(s, e)]
      else if p.test s then [(s, e)] else []) ++ clip_loop_calls p e rest

/-- The `plane.intersection` calls of one pass of `sutherland_hodgman_3d`. -/
def clip_plane_calls (p : plane) (input : List Vec4) : List (Vec4 × Vec4) :=
  match input.getLast? with
  | none => []
  | some s0 => clip_loop_calls p s0 input

/-- The `plane.intersection` calls of the outer loop, each tagged with the
plane that makes it. -/
def sh_calls : List plane → List Vec4 → List (plane × Vec4 × Vec4)
  | [], _ => []
  | pl :: rest, out =>
      if out = [] then []
      else
        (clip_plane_calls pl out).map (fun q => (pl, q)) ++
          sh_calls rest (clip_against_plane pl out)

/-- All `plane.intersection` calls made while clipping the triangle
`p1 p2 p3` in `sutherland_hodgman_3d`. -/
def sutherland_hodgman_calls (p1 p2 p3 : Vec4) : List (plane × Vec4 × Vec4) :=
  sh_calls clip_planes [p1, p2, p3]

/-- The `viewport` record of `main.go` (integer pixel extents). -/
structure viewport where
  x : ℕ
  y : ℕ
  w : ℕ
  h : ℕ
  w_2 : ℕ
  h_2 : ℕ
deriving DecidableEq

/-- A screen-space triangle with its depth estimate, as stored in
`context.screen_triangles`. -/
structure screen_triangle where
  v1 : vertex
  v2 : vertex
  v3 : vertex
  distance : ℚ
deriving DecidableEq

/-- An ebiten.Vertex: texture source position, screen destination position
and a color. -/
structure EVertex where
  SrcX : ℚ
  SrcY : ℚ
  DstX : ℚ
  DstY : ℚ
  ColorR : ℚ
  ColorG : ℚ
  ColorB : ℚ
  ColorA : ℚ
deriving DecidableEq

/-- The per-frame `context` of `main.go`: matrices, viewport and the
working buffers. -/
structure context where
  viewport : viewport
  clip_space_points : List Vec4
  screen_triangles : List screen_triangle
  vertices : List EVertex
  indices : List ℕ
deriving DecidableEq

/-- `context.set_viewport` from `main.go`; Go integer division by 2 on
nonnegative extents is ℕ division. -/
def set_viewport (c : context) (x y w h : ℕ) : context :=
  { c with viewport := ⟨x, y, w, h, w / 2, h / 2⟩ }

/-- `clip_out_of_bounds` from `main.go`: the fast test that routes a
triangle into the clipper. -/
def clip_out_of_bounds (a : Vec4) : Bool :=
  decide (a.x < -a.w) || decide (a.x > a.w) || decide (a.y < -a.w) ||
    decide (a.y > a.w) || decide (a.z < -a.w) || decide (a.z > a.w)

/-- `context.clip_to_ndc` from `main.go`: multiply all four components by
`1 / w`. -/
def clip_to_ndc (src : Vec4) : Vec4 :=
  src.mul (1 / src.w)

/-- `context.ndc_to_screen` from `main.go`: viewport mapping, keeping
`1 / z` in the fourth component. -/
def ndc_to_screen (c : context) (src : Vec4) : Vec4 :=
  let w_2 : ℚ := (c.viewport.w_2 : ℚ)
  let h_2 : ℚ := (c.viewport.h_2 : ℚ)
  let z := 1 / 2 * src.z + 1 / 2
  ⟨w_2 * src.x + w_2, h_2 * src.y + h_2, z, 1 / z⟩

/-- The signed area computed by the back-face test of `push_triangle`,
on normalized device coordinates. -/
def signed_area (ndc1 ndc2 ndc3 : Vec4) : ℚ :=
  (ndc2.x - ndc1.x) * (ndc3.y - ndc1.y) - (ndc3.x - ndc1.x) * (ndc2.y - ndc1.y)

/-- `context.push_triangle` from `main.go`: perspective divide, back-face
cull on the signed area, then screen mapping and append. -/
def push_triangle (c : context) (v1 v2 v3 : vertex) : context :=
  let ndc1 := clip_to_ndc v1.position
  let ndc2 := clip_to_ndc v2.position
  let ndc3 := clip_to_ndc v3.position
  if signed_area ndc1 ndc2 ndc3 ≤ 0 then c
  else
    let w1 : vertex := { v1 with position := ndc_to_screen c ndc1 }
    let w2 : vertex := { v2 with position := ndc_to_screen c ndc2 }
    let w3 : vertex := { v3 with position := ndc_to_screen c ndc3 }
    { c with
      screen_triangles := c.screen_triangles ++
        [{ v1 := w1, v2 := w2, v3 := w3
           distance := (w1.position.z + w2.position.z + w3.position.z) / 3 }] }

/-- The loop body of `clip_triangle_and_push` at fan index `i`: the output
triangle built by barycentric interpolation of the original vertices at
polygon vertices `0`, `i - 1` and `i`. -/
def fan_triangle (v1 v2 v3 : vertex) (pts : List Vec4) (i : ℕ) :
    vertex × vertex × vertex :=
  let p1 := v1.position.vec3
  let p2 := v2.position.vec3
  let p3 := v3.position.vec3
  let b1 := barycentric p1 p2 p3 (pts.getD 0 Vec4.zero).vec3
  let b2 := barycentric p1 p2 p3 (pts.getD (i - 1) Vec4.zero).vec3
  let b3 := barycentric p1 p2 p3 (pts.getD i Vec4.zero).vec3
  (interpolate_vertex v1 v2 v3 b1,
   interpolate_vertex v1 v2 v3 b2,
   interpolate_vertex v1 v2 v3 b3)

/-- The candidate triangles that the loop of `clip_triangle_and_push`
passes to `push_triangle`: for `i` in `[2, n)`, the fan triangle at `i`. -/
def clip_candidates (v1 v2 v3 : vertex) : List (vertex × vertex × vertex) :=
  let pts := sutherland_hodgman_3d v1.position v2.position v3.position
  (List.range' 2 (pts.length - 2)).map (fan_triangle v1 v2 v3 pts)

/-- `context.clip_triangle_and_push` from `main.go`: clip, then push every
fan triangle of the clipped polygon. -/
def clip_triangle_and_push (c : context) (v1 v2 v3 : vertex) : context :=
  (clip_candidates v1 v2 v3).foldl (fun ctx t => push_triangle ctx t.1 t.2.1 t.2.2) c

/-- The ordering used by the comparator of `sort_triangles`: `a` may come
before `b` when `a.distance ≥ b.distance`. -/
def dist_ge (a b : screen_triangle) : Prop := b.distance ≤ a.distance

instance : DecidableRel dist_ge := fun a b =>
  inferInstanceAs (Decidable (b.distance ≤ a.distance))

/-- The comparator passed to slices.SortFunc by `sort_triangles`:
`-1` when `a.distance ≥ b.distance`, else `1` (first operand wins ties). -/
def sort_cmp (a b : screen_triangle) : ℤ :=
  if b.distance ≤ a.distance then -1 else 1

/-- `context.sort_triangles` from `main.go`: sorts `screen_triangles` into
descending distance order with the comparator above.  The source uses the
unstable library sort; the model uses insertion sort with the same
ordering, which produces an order the comparator accepts. -/
def sort_triangles (c : context) : context :=
  { c with screen_triangles := List.insertionSort dist_ge c.screen_triangles }

/-- The buffer-assembly loop of `draw_triangles`: appends three vertices
and three indices per screen triangle; the first index of each triple is
`len(indices)` converted to uint16, and the following two are uint16
increments of it. -/
def draw_loop (tw th : ℚ) : List screen_triangle → List EVertex → List ℕ →
    List EVertex × List ℕ
  | [], vs, is => (vs, is)
  | t :: rest, vs, is =>
      let e1 : EVertex :=
        ⟨t.v1.texcoord.x * tw, t.v1.texcoord.y * th,
         t.v1.position.x, t.v1.position.y, 1, 1, 1, 1⟩
      let e2 : EVertex :=
        ⟨t.v2.texcoord.x * tw, t.v2.texcoord.y * th,
         t.v2.position.x, t.v2.position.y, 1, 1, 1, 1⟩
      let e3 : EVertex :=
        ⟨t.v3.texcoord.x * tw, t.v3.texcoord.y * th,
         t.v3.position.x, t.v3.position.y, 1, 1, 1, 1⟩
      let fi := is.length % 2 ^ 16
      draw_loop tw th rest (vs ++ [e1, e2, e3])
        (is ++ [fi, (fi + 1) % 2 ^ 16, (fi + 2) % 2 ^ 16])

/-- `context.draw_triangles` from `main.go`, restricted to its observable
output: the vertex and index arrays submitted to the rasterizer for a
frame whose buffers start empty (they are truncated after every frame). -/
def draw_triangles (tw th : ℚ) (ts : List screen_triangle) :
    List EVertex × List ℕ :=
  draw_loop tw th ts [] []

/-- The `triangle` record of `main.go`: uint16 indices into points and
texcoords (stored as naturals below 2 ^ 16). -/
structure triangle where
  p1 : ℕ
  p2 : ℕ
  p3 : ℕ
  t1 : ℕ
  t2 : ℕ
  t3 : ℕ
deriving DecidableEq

/-- The `mesh` record of `main.go`. -/
structure mesh where
  triangles : List triangle
  points : List Vec3
  texcoords : List Vec2
deriving DecidableEq

/-- One record of the OBJ text consumed by `load_obj`, after the
fmt.Fscan tokenizing (an external library) has run: `skip` is a
comment/object/smoothing/line record, `v` a vertex, `vt` a texture
coordinate, `f` a face carrying the six parsed uint16 fields in source
order `v1 t1 v2 t2 v3 t3`, and `bad` an unknown record type or a record
whose numeric fields failed to scan. -/
inductive obj_rec where
  | skip : obj_rec
  | v : ℚ → ℚ → ℚ → obj_rec
  | vt : ℚ → ℚ → obj_rec
  | f : ℕ → ℕ → ℕ → ℕ → ℕ → ℕ → obj_rec
  | bad : obj_rec
deriving DecidableEq

/-- The loop body of `load_obj`: the Go switch over the record type.
Face indices are decremented with uint16 wraparound (`v - 1` on uint16). -/
def load_obj_loop (m : mesh) : List obj_rec → Except String mesh
  | [] => Except.ok m
  | obj_rec.skip :: rest => load_obj_loop m rest
  | obj_rec.v x y z :: rest =>
      load_obj_loop { m with points := m.points ++ [⟨x, y, z⟩] } rest
  | obj_rec.vt s t :: rest =>
      load_obj_loop { m with texcoords := m.texcoords ++ [⟨s, t⟩] } rest
  | obj_rec.f a ta b tb c tc :: rest =>
      load_obj_loop
        { m with triangles := m.triangles ++
            [{ p1 := (a + 2 ^ 16 - 1) % 2 ^ 16
               p2 := (b + 2 ^ 16 - 1) % 2 ^ 16
               p3 := (c + 2 ^ 16 - 1) % 2 ^ 16
               t1 := (ta + 2 ^ 16 - 1) % 2 ^ 16
               t2 := (tb + 2 ^ 16 - 1) % 2 ^ 16
               t3 := (tc + 2 ^ 16 - 1) % 2 ^ 16 }] } rest
  | obj_rec.bad :: _ => Except.error "bad record"

/-- `load_obj` from `main.go`, over the tokenized record stream: builds
the mesh, failing only on a malformed record. -/
def load_obj (recs : List obj_rec) : Except String mesh :=
  load_obj_loop { triangles := [], points := [], texcoords := [] } recs

/-- A 4x4 float matrix (mgl32.Mat4), written with row-column entries. -/
structure Mat4 where
  m00 : ℚ
  m01 : ℚ
  m02 : ℚ
  m03 : ℚ
  m10 : ℚ
  m11 : ℚ
  m12 : ℚ
  m13 : ℚ
  m20 : ℚ
  m21 : ℚ
  m22 : ℚ
  m23 : ℚ
  m30 : ℚ
  m31 : ℚ
  m32 : ℚ
  m33 : ℚ
deriving DecidableEq

namespace Mat4

/-- mgl32 Mat4.Mul4x1, the matrix-vector product. -/
def mul4x1 (m : Mat4) (v : Vec4) : Vec4 :=
  ⟨m.m00 * v.x + m.m01 * v.y + m.m02 * v.z + m.m03 * v.w,
   m.m10 * v.x + m.m11 * v.y + m.m12 * v.z + m.m13 * v.w,
   m.m20 * v.x + m.m21 * v.y + m.m22 * v.z + m.m23 * v.w,
   m.m30 * v.x + m.m31 * v.y + m.m32 * v.z + m.m33 * v.w⟩

/-- mgl32 Mat4.Mul4, the matrix-matrix product. -/
def mul4 (a b : Mat4) : Mat4 :=
  { m00 := a.m00 * b.m00 + a.m01 * b.m10 + a.m02 * b.m20 + a.m03 * b.m30
    m01 := a.m00 * b.m01 + a.m01 * b.m11 + a.m02 * b.m21 + a.m03 * b.m31
    m02 := a.m00 * b.m02 + a.m01 * b.m12 + a.m02 * b.m22 + a.m03 * b.m32
    m03 := a.m00 * b.m03 + a.m01 * b.m13 + a.m02 * b.m23 + a.m03 * b.m33
    m10 := a.m10 * b.m00 + a.m11 * b.m10 + a.m12 * b.m20 + a.m13 * b.m30
    m11 := a.m10 * b.m01 + a.m11 * b.m11 + a.m12 * b.m21 + a.m13 * b.m31
    m12 := a.m10 * b.m02 + a.m11 * b.m12 + a.m12 * b.m22 + a.m13 * b.m32
    m13 := a.m10 * b.m03 + a.m11 * b.m13 + a.m12 * b.m23 + a.m13 * b.m33
    m20 := a.m20 * b.m00 + a.m21 * b.m10 + a.m22 * b.m20 + a.m23 * b.m30
    m21 := a.m20 * b.m01 + a.m21 * b.m11 + a.m22 * b.m21 + a.m23 * b.m31
    m22 := a.m20 * b.m02 + a.m21 * b.m12 + a.m22 * b.m22 + a.m23 * b.m32
    m23 := a.m20 * b.m03 + a.m21 * b.m13 + a.m22 * b.m23 + a.m23 * b.m33
    m30 := a.m30 * b.m00 + a.m31 * b.m10 + a.m32 * b.m20 + a.m33 * b.m30
    m31 := a.m30 * b.m01 + a.m31 * b.m11 + a.m32 * b.m21 + a.m33 * b.m31
    m32 := a.m30 * b.m02 + a.m31 * b.m12 + a.m32 * b.m22 + a.m33 * b.m32
    m33 := a.m30 * b.m03 + a.m31 * b.m13 + a.m32 * b.m23 + a.m33 * b.m33 }

/-- mgl32.Ident4. -/
def ident : Mat4 :=
  { m00 := 1, m01 := 0, m02 := 0, m03 := 0
    m10 := 0, m11 := 1, m12 := 0, m13 := 0
    m20 := 0, m21 := 0, m22 := 1, m23 := 0
    m30 := 0, m31 := 0, m32 := 0, m33 := 1 }

end Mat4

/-- The per-point transform of `push_mesh`: multiply the homogeneous point
by `proj * view`. -/
def clip_space_point (proj view : Mat4) (p : Vec3) : Vec4 :=
  (proj.mul4 view).mul4x1 (p.vec4 1)

/-- The full per-vertex chain of the pipeline up to screen mapping, with
no culling or clipping: transform to clip space, perspective divide,
viewport mapping. -/
def transform_chain (c : context) (proj view : Mat4) (p : Vec3) : Vec4 :=
  ndc_to_screen c (clip_to_ndc (clip_space_point proj view p))

/-!  Helper lemmas: the size of a Sutherland-Hodgman pass, computed on
the Boolean trace of the plane test along the polygon ring. -/

/-- Number of value changes along the walk `s :: bs`. -/
def chg : Bool → List Bool → ℕ
  | _, [] => 0
  | s, e :: r => (if s = e then 0 else 1) + chg e r

/-- The number of vertices one clipping pass outputs, on the Boolean trace:
each edge contributes one vertex when its head is inside and one more when
the test changes across the edge. -/
def cw : Bool → List Bool → ℕ
  | _, [] => 0
  | s, e :: r => ((if e then 1 else 0) + (if s = e then 0 else 1)) + cw e r

lemma cw_eq_count_add_chg : ∀ (bs : List Bool) (s : Bool),
    cw s bs = bs.count true + chg s bs := by
  intro bs
  induction bs with
  | nil => intro s; rfl
  | cons e r ih =>
      intro s
      rw [cw, chg, ih e, List.count_cons]
      cases e <;> cases s <;> simp <;> omega

lemma chg_ge_one : ∀ (bs : List Bool) (s : Bool),
    (∃ b ∈ bs, b ≠ s) → 1 ≤ chg s bs := by
  intro bs
  induction bs with
  | nil => intro s h; simp at h
  | cons e r ih =>
      intro s h
      rw [chg]
      by_cases hse : s = e
      · rcases h with ⟨b, hb, hbs⟩
        rcases List.mem_cons.mp hb with hbe | hbr
        · exact absurd (hbe.trans hse.symm) hbs
        · have := ih e ⟨b, hbr, by rw [← hse]; exact hbs⟩
          omega
      · rw [if_neg hse]; omega

lemma chg_ge_two : ∀ (bs : List Bool) (s : Bool),
    bs.getLast? = some s → (∃ b ∈ bs, b ≠ s) → 2 ≤ chg s bs := by
  intro bs
  induction bs with
  | nil => intro s h; simp at h
  | cons e r ih =>
      intro s hlast h
      cases r with
      | nil =>
          have hes : e = s := by simpa using hlast
          rcases h with ⟨b, hb, hbs⟩
          have : b = e := by simpa using hb
          exact absurd (this.trans hes) hbs
      | cons f r2 =>
          have hlast2 : (f :: r2).getLast? = some s := by
            simpa [List.getLast?] using hlast
          rw [chg]
          by_cases hse : s = e
          · rw [if_pos hse]
            rcases h with ⟨b, hb, hbs⟩
            rcases List.mem_cons.mp hb with hbe | hbr
            · exact absurd (hbe.trans hse.symm) hbs
            · have := ih s ?_ ⟨b, hbr, hbs⟩
              · rw [← hse]; omega
              · exact hlast2
          · rw [if_neg hse]
            have hs_mem : s ∈ f :: r2 := List.mem_of_mem_getLast? hlast2
            have := chg_ge_one (f :: r2) e ⟨s, hs_mem, hse⟩
            omega

lemma cw_all_false : ∀ bs : List Bool, (∀ b ∈ bs, b = false) →
    cw false bs = 0 := by
  intro bs
  induction bs with
  | nil => intro _; rfl
  | cons e r ih =>
      intro h
      have he : e = false := h e (List.mem_cons_self e r)
      subst he
      rw [cw, ih (fun b hb => h b (List.mem_cons_of_mem _ hb))]
      simp

lemma cw_all_true : ∀ bs : List Bool, (∀ b ∈ bs, b = true) →
    cw true bs = bs.length := by
  intro bs
  induction bs with
  | nil => intro _; rfl
  | cons e r ih =>
      intro h
      have he : e = true := h e (List.mem_cons_self e r)
      subst he
      rw [cw, ih (fun b hb => h b (List.mem_cons_of_mem _ hb))]
      simp
      omega

lemma cw_zero_or_ge_three (bs : List Bool) (s : Bool)
    (hlast : bs.getLast? = some s) (hlen : 3 ≤ bs.length) :
    cw s bs = 0 ∨ 3 ≤ cw s bs := by
  have hs_mem : s ∈ bs := List.mem_of_mem_getLast? hlast
  by_cases ht : ∃ b ∈ bs, b = true
  · by_cases hf : ∃ b ∈ bs, b = false
    · right
      have hne : ∃ b ∈ bs, b ≠ s := by
        cases s
        · rcases ht with ⟨b, hb, rfl⟩; exact ⟨true, hb, by simp⟩
        · rcases hf with ⟨b, hb, rfl⟩; exact ⟨false, hb, by simp⟩
      have h2 := chg_ge_two bs s hlast hne
      have h1 : 1 ≤ bs.count true := by
        rcases ht with ⟨b, hb, rfl⟩
        exact List.count_pos_iff.mpr hb
      rw [cw_eq_count_add_chg]
      omega
    · push_neg at hf
      have hall : ∀ b ∈ bs, b = true := by
        intro b hb
        cases hbv : b
        · exact absurd hbv (hf b hb)
        · rfl
      have hst : s = true := hall s hs_mem
      right
      rw [hst, cw_all_true bs hall]
      exact hlen
  · push_neg at ht
    have hall : ∀ b ∈ bs, b = false := by
      intro b hb
      cases hbv : b
      · rfl
      · exact absurd hbv (ht b hb)
    have hsf : s = false := hall s hs_mem
    left
    rw [hsf]
    exact cw_all_false bs hall

lemma clip_edge_out_length (p : plane) (s e : Vec4) :
    (clip_edge_out p s e).length =
      (if p.test e then 1 else 0) + (if p.test s = p.test e then 0 else 1) := by
  cases h1 : p.test e <;> cases h2 : p.test s <;> simp [clip_edge_out, h1, h2]

lemma clip_loop_length (p : plane) :
    ∀ (l : List Vec4) (s : Vec4),
      (clip_loop p s l).length = cw (p.test s) (l.map p.test) := by
  intro l
  induction l with
  | nil => intro s; rfl
  | cons e rest ih =>
      intro s
      rw [clip_loop, List.length_append, clip_edge_out_length, ih, List.map_cons, cw]

lemma clip_against_plane_size (p : plane) (l : List Vec4) (h3 : 3 ≤ l.length) :
    clip_against_plane p l = [] ∨ 3 ≤ (clip_against_plane p l).length := by
  unfold clip_against_plane
  cases hl : l.getLast? with
  | none => exact Or.inl rfl
  | some s0 =>
      have hmap : (l.map p.test).getLast? = some (p.test s0) := by
        rw [List.getLast?_map, hl, Option.map_some']
      have hlen : 3 ≤ (l.map p.test).length := by simpa using h3
      rcases cw_zero_or_ge_three (l.map p.test) (p.test s0) hmap hlen with h | h
      · left
        have : (clip_loop p s0 l).length = 0 := by rw [clip_loop_length, h]
        exact List.length_eq_zero.mp this
      · right
        rw [clip_loop_length]
        exact h

lemma sh_planes_nil : ∀ ps : List plane, sh_planes ps [] = [] := by
  intro ps
  cases ps <;> simp [sh_planes]

lemma sh_planes_size : ∀ (ps : List plane) (out : List Vec4),
    (out = [] ∨ 3 ≤ out.length) →
    (sh_planes ps out = [] ∨ 3 ≤ (sh_planes ps out).length) := by
  intro ps
  induction ps with
  | nil => intro out h; simpa [sh_planes] using h
  | cons pl rest ih =>
      intro out h
      by_cases ho : out = []
      · simp [sh_planes, ho]
      · rw [sh_planes, if_neg ho]
        apply ih
        apply clip_against_plane_size
        rcases h with h | h
        · exact absurd h ho
        · exact h

lemma plane_right_test_eq_false {v : Vec4} (h : v.w < v.x) :
    plane_right.test v = false := by
  rw [plane.test, decide_eq_false_iff_not]
  intro hc
  rw [plane_right] at hc
  simp only [Vec4.sub, Vec4.dot] at hc
  linarith

lemma clip_loop_all_false (p : plane) :
    ∀ (l : List Vec4) (s : Vec4), p.test s = false →
      (∀ v ∈ l, p.test v = false) → clip_loop p s l = [] := by
  intro l
  induction l with
  | nil => intro s _ _; rfl
  | cons e rest ih =>
      intro s hs hl
      have he : p.test e = false := hl e (List.mem_cons_self e rest)
      rw [clip_loop, clip_edge_out, he, hs]
      simp only [Bool.false_eq_true, if_false]
      exact ih e he (fun v hv => hl v (List.mem_cons_of_mem _ hv))

/-- A context with a zero viewport and empty buffers (the Go zero value). -/
def ctx_empty : context :=
  { viewport := ⟨0, 0, 0, 0, 0, 0⟩
    clip_space_points := []
    screen_triangles := []
    vertices := []
    indices := [] }

/-- C1: `sutherland_hodgman_3d` always returns a polygon of 0 or at least
3 vertices; and when all three input vertices are strictly outside the
right frustum plane (`x > w`), the first clipping pass already empties the
polygon, the whole clip returns the empty polygon, and
`clip_triangle_and_push` emits zero output triangles, leaving the context
unchanged. -/
theorem sutherland_hodgman_output_size (v1 v2 v3 : vertex) (c : context) :
    ((sutherland_hodgman_3d v1.position v2.position v3.position).length = 0 ∨
      3 ≤ (sutherland_hodgman_3d v1.position v2.position v3.position).length) ∧
    (v1.position.w < v1.position.x → v2.position.w < v2.position.x →
      v3.position.w < v3.position.x →
      clip_against_plane plane_right [v1.position, v2.position, v3.position] = [] ∧
      sutherland_hodgman_3d v1.position v2.position v3.position = [] ∧
      clip_candidates v1 v2 v3 = [] ∧
      clip_triangle_and_push c v1 v2 v3 = c) := by
  constructor
  · rcases sh_planes_size clip_planes [v1.position, v2.position, v3.position]
        (Or.inr (by simp)) with h | h
    · left
      rw [sutherland_hodgman_3d, h]
      rfl
    · right
      rw [sutherland_hodgman_3d]
      exact h
  · intro h1 h2 h3
    have t1 := plane_right_test_eq_false h1
    have t2 := plane_right_test_eq_false h2
    have t3 := plane_right_test_eq_false h3
    have hall : ∀ v ∈ [v1.position, v2.position, v3.position],
        plane_right.test v = false := by
      intro v hv
      simp only [List.mem_cons, List.not_mem_nil, or_false] at hv
      rcases hv with rfl | rfl | rfl
      · exact t1
      · exact t2
      · exact t3
    have hcap : clip_against_plane plane_right
        [v1.position, v2.position, v3.position] = [] := by
      rw [clip_against_plane]
      simp only [List.getLast?]
      exact clip_loop_all_false plane_right _ v3.position t3 hall
    have hsh : sutherland_hodgman_3d v1.position v2.position v3.position = [] := by
      rw [sutherland_hodgman_3d, clip_planes, sh_planes,
        if_neg (by simp : ([v1.position, v2.position, v3.position] : List Vec4) ≠ []),
        hcap, sh_planes_nil]
    have hcand : clip_candidates v1 v2 v3 = [] := by
      rw [clip_candidates, hsh]
      rfl
    refine ⟨hcap, hsh, hcand, ?_⟩
    rw [clip_triangle_and_push, hcand]
    rfl

/-- Witness for C1 at a concrete all-outside triangle. -/
theorem sutherland_hodgman_output_size_witness :
    clip_against_plane plane_right
      [(⟨2, 0, 0, 1⟩ : Vec4), ⟨3, 0, 0, 1⟩, ⟨2, 1, 0, 1⟩] = [] ∧
    sutherland_hodgman_3d ⟨2, 0, 0, 1⟩ ⟨3, 0, 0, 1⟩ ⟨2, 1, 0, 1⟩ = [] ∧
    clip_candidates ⟨⟨2, 0, 0, 1⟩, ⟨0, 0⟩⟩ ⟨⟨3, 0, 0, 1⟩, ⟨0, 0⟩⟩
      ⟨⟨2, 1, 0, 1⟩, ⟨0, 0⟩⟩ = [] ∧
    clip_triangle_and_push ctx_empty ⟨⟨2, 0, 0, 1⟩, ⟨0, 0⟩⟩
      ⟨⟨3, 0, 0, 1⟩, ⟨0, 0⟩⟩ ⟨⟨2, 1, 0, 1⟩, ⟨0, 0⟩⟩ = ctx_empty :=
  (sutherland_hodgman_output_size ⟨⟨2, 0, 0, 1⟩, ⟨0, 0⟩⟩ ⟨⟨3, 0, 0, 1⟩, ⟨0, 0⟩⟩
    ⟨⟨2, 1, 0, 1⟩, ⟨0, 0⟩⟩ ctx_empty).2 (by decide) (by decide) (by decide)

/-- Clip example: a triangle with one vertex cut off by the right plane. -/
def exV1 : vertex := ⟨⟨2, 0, 0, 1⟩, ⟨0, 0⟩⟩

/-- Second vertex of the clip example, inside the frustum. -/
def exV2 : vertex := ⟨⟨0, 1/2, 0, 1⟩, ⟨1, 0⟩⟩

/-- Third vertex of the clip example, inside the frustum. -/
def exV3 : vertex := ⟨⟨0, -1/2, 0, 1⟩, ⟨0, 1⟩⟩

/-- The clip example evaluated: the right plane cuts off the vertex at
`x = 2`, yielding a 4-vertex polygon; the remaining five planes keep it. -/
lemma sutherland_example :
    sutherland_hodgman_3d exV1.position exV2.position exV3.position =
      [⟨1, -1/4, 0, 1⟩, ⟨1, 1/4, 0, 1⟩, ⟨0, 1/2, 0, 1⟩, ⟨0, -1/2, 0, 1⟩] := by
  norm_num [exV1, exV2, exV3, sutherland_hodgman_3d, clip_planes, sh_planes,
    clip_against_plane, clip_loop, clip_edge_out, plane.test, plane.intersection,
    plane_right, plane_left, plane_bottom, plane_top, plane_front, plane_back,
    Vec4.sub, Vec4.dot, Vec4.add, Vec4.mul, List.getLast?]
  simp

/-- C2: `clip_triangle_and_push` fan-triangulates the clipped polygon from
vertex 0 into exactly `n - 2` candidate triangles, the one at fan index
`i = j + 2` built from polygon vertices `0`, `i - 1`, `i`; and the example
triangle cut at exactly one vertex by the right plane yields a 4-vertex
polygon and exactly 2 output triangles. -/
theorem clip_fan_triangulation :
    (∀ v1 v2 v3 : vertex,
      (clip_candidates v1 v2 v3).length =
        (sutherland_hodgman_3d v1.position v2.position v3.position).length - 2 ∧
      (∀ j, j < (sutherland_hodgman_3d v1.position v2.position v3.position).length - 2 →
        (clip_candidates v1 v2 v3).getD j ⟨v1, v2, v3⟩ =
          fan_triangle v1 v2 v3
            (sutherland_hodgman_3d v1.position v2.position v3.position) (j + 2))) ∧
    ((sutherland_hodgman_3d exV1.position exV2.position exV3.position).length = 4 ∧
      (clip_candidates exV1 exV2 exV3).length = 2) := by
  constructor
  · intro v1 v2 v3
    constructor
    · simp [clip_candidates]
    · intro j hj
      have hlen : j < (clip_candidates v1 v2 v3).length := by
        simpa [clip_candidates] using hj
      rw [List.getD_eq_getElem _ _ hlen]
      simp only [clip_candidates, List.getElem_map, List.getElem_range']
      have h21 : 2 + 1 * j = j + 2 := by omega
      rw [h21]
  · constructor
    · rw [sutherland_example]
      rfl
    · rw [clip_candidates, sutherland_example]
      rfl

/-- Witness for C2: the first fan triangle of the clip example is built
from polygon vertices 0, 1, 2. -/
theorem clip_fan_triangulation_witness :
    (clip_candidates exV1 exV2 exV3).getD 0 ⟨exV1, exV2, exV3⟩ =
      fan_triangle exV1 exV2 exV3
        (sutherland_hodgman_3d exV1.position exV2.position exV3.position) (0 + 2) :=
  (clip_fan_triangulation.1 exV1 exV2 exV3).2 0 (by rw [sutherland_example]; decide)

/-- C3: `push_triangle` appends the screen-mapped triangle to
`screen_triangles` exactly when the signed area of the
normalized-device-coordinate triangle is strictly positive; otherwise
(including a signed area of exactly 0) it returns the context unchanged,
with no error path. -/
theorem push_triangle_iff_front_facing (c : context) (v1 v2 v3 : vertex) :
    push_triangle c v1 v2 v3 =
      if 0 < signed_area (clip_to_ndc v1.position) (clip_to_ndc v2.position)
          (clip_to_ndc v3.position) then
        { c with screen_triangles := c.screen_triangles ++
            [{ v1 := { v1 with position := ndc_to_screen c (clip_to_ndc v1.position) }
               v2 := { v2 with position := ndc_to_screen c (clip_to_ndc v2.position) }
               v3 := { v3 with position := ndc_to_screen c (clip_to_ndc v3.position) }
               distance := ((ndc_to_screen c (clip_to_ndc v1.position)).z +
                  (ndc_to_screen c (clip_to_ndc v2.position)).z +
                  (ndc_to_screen c (clip_to_ndc v3.position)).z) / 3 }] }
      else c := by
  simp only [push_triangle]
  by_cases h : signed_area (clip_to_ndc v1.position) (clip_to_ndc v2.position)
      (clip_to_ndc v3.position) ≤ 0
  · rw [if_pos h, if_neg (not_lt.mpr h)]
  · rw [if_neg h, if_pos (lt_of_not_le h)]

instance : IsTotal screen_triangle dist_ge :=
  ⟨fun a b => le_total b.distance a.distance⟩

instance : IsTrans screen_triangle dist_ge :=
  ⟨fun _ _ _ hab hbc => le_trans hbc hab⟩

/-- A vertex at the origin, used to build example screen triangles. -/
def null_vertex : vertex := ⟨⟨0, 0, 0, 0⟩, ⟨0, 0⟩⟩

/-- Screen triangles with depths 0.2, 0.5, 0.1, the sort example. -/
def sort_example : List screen_triangle :=
  [⟨null_vertex, null_vertex, null_vertex, 1/5⟩,
   ⟨null_vertex, null_vertex, null_vertex, 1/2⟩,
   ⟨null_vertex, null_vertex, null_vertex, 1/10⟩]

/-- C4: `sort_triangles` reorders `screen_triangles` into a permutation of
itself that is sorted by descending distance; the comparator returns -1
(first operand wins) exactly when `a.distance ≥ b.distance`; and depths
0.2, 0.5, 0.1 come out as 0.5, 0.2, 0.1. -/
theorem sort_triangles_descending (c : context) :
    List.Perm (sort_triangles c).screen_triangles c.screen_triangles ∧
    List.Sorted dist_ge (sort_triangles c).screen_triangles ∧
    (∀ a b : screen_triangle, sort_cmp a b = -1 ↔ dist_ge a b) ∧
    (sort_triangles { ctx_empty with
        screen_triangles := sort_example }).screen_triangles.map
      screen_triangle.distance = [1/2, 1/5, 1/10] := by
  refine ⟨List.perm_insertionSort dist_ge _, List.sorted_insertionSort dist_ge _,
    ?_, ?_⟩
  · intro a b
    by_cases hd : b.distance ≤ a.distance <;>
      simp [sort_cmp, dist_ge, hd]
  · norm_num [sort_triangles, sort_example, ctx_empty, List.insertionSort,
      List.orderedInsert, dist_ge]

/-- The draw context of the end-to-end scenario: an 800x600 viewport. -/
def ctx800 : context := set_viewport ctx_empty 0 0 800 600

lemma transform_chain_ex1 :
    transform_chain ctx800 Mat4.ident Mat4.ident ⟨-1, -1, 0⟩ = ⟨0, 0, 1/2, 2⟩ := by
  norm_num [transform_chain, ctx800, ctx_empty, set_viewport, ndc_to_screen,
    clip_to_ndc, clip_space_point, Mat4.ident, Mat4.mul4, Mat4.mul4x1,
    Vec3.vec4, Vec4.mul]

lemma transform_chain_ex2 :
    transform_chain ctx800 Mat4.ident Mat4.ident ⟨1, -1, 0⟩ = ⟨800, 0, 1/2, 2⟩ := by
  norm_num [transform_chain, ctx800, ctx_empty, set_viewport, ndc_to_screen,
    clip_to_ndc, clip_space_point, Mat4.ident, Mat4.mul4, Mat4.mul4x1,
    Vec3.vec4, Vec4.mul]

lemma transform_chain_ex3 :
    transform_chain ctx800 Mat4.ident Mat4.ident ⟨0, 1, 0⟩ = ⟨400, 600, 1/2, 2⟩ := by
  norm_num [transform_chain, ctx800, ctx_empty, set_viewport, ndc_to_screen,
    clip_to_ndc, clip_space_point, Mat4.ident, Mat4.mul4, Mat4.mul4x1,
    Vec3.vec4, Vec4.mul]

/-- C5 counterexample: on the 800x600 viewport with identity view and
projection, the unit triangle maps to pixels (0,0), (800,0), (400,600) -
not to (0,600), (800,600), (400,0) as claimed: the screen mapping
`h_2 * ndc.y + h_2` performs no y flip. -/
theorem transform_chain_spec_coords_false :
    (transform_chain ctx800 Mat4.ident Mat4.ident ⟨-1, -1, 0⟩).y = 0 ∧
    ¬ ((transform_chain ctx800 Mat4.ident Mat4.ident ⟨-1, -1, 0⟩).y = 600 ∧
       (transform_chain ctx800 Mat4.ident Mat4.ident ⟨1, -1, 0⟩).y = 600 ∧
       (transform_chain ctx800 Mat4.ident Mat4.ident ⟨0, 1, 0⟩).y = 0) := by
  constructor
  · rw [transform_chain_ex1]
  · intro h
    rcases h with ⟨ha, _⟩
    rw [transform_chain_ex1] at ha
    norm_num [Vec4.y] at ha

/-- C5 amended: with identity matrices on the 800x600 viewport the chain
produces screen positions (0,0), (800,0), (400,600) with z = 1/2, and in
general `ndc_to_screen` maps `x` to `w_2*x + w_2`, `y` to `h_2*y + h_2`
and `z` to `z/2 + 1/2`. -/
theorem transform_chain_screen_coords :
    (∀ (c : context) (src : Vec4),
      (ndc_to_screen c src).x = (c.viewport.w_2 : ℚ) * src.x + (c.viewport.w_2 : ℚ) ∧
      (ndc_to_screen c src).y = (c.viewport.h_2 : ℚ) * src.y + (c.viewport.h_2 : ℚ) ∧
      (ndc_to_screen c src).z = 1/2 * src.z + 1/2) ∧
    transform_chain ctx800 Mat4.ident Mat4.ident ⟨-1, -1, 0⟩ = ⟨0, 0, 1/2, 2⟩ ∧
    transform_chain ctx800 Mat4.ident Mat4.ident ⟨1, -1, 0⟩ = ⟨800, 0, 1/2, 2⟩ ∧
    transform_chain ctx800 Mat4.ident Mat4.ident ⟨0, 1, 0⟩ = ⟨400, 600, 1/2, 2⟩ :=
  ⟨fun _ _ => ⟨rfl, rfl, rfl⟩,
   transform_chain_ex1, transform_chain_ex2, transform_chain_ex3⟩

lemma draw_loop_vertices_length (tw th : ℚ) :
    ∀ (ts : List screen_triangle) (vs : List EVertex) (is : List ℕ),
      (draw_loop tw th ts vs is).1.length = vs.length + 3 * ts.length := by
  intro ts
  induction ts with
  | nil => intro vs is; simp [draw_loop]
  | cons t rest ih =>
      intro vs is
      simp only [draw_loop]
      rw [ih]
      simp only [List.length_append, List.length_cons, List.length_nil]
      omega

lemma draw_loop_indices (tw th : ℚ) :
    ∀ (ts : List screen_triangle) (vs : List EVertex) (is : List ℕ),
      (draw_loop tw th ts vs is).2 =
        is ++ (List.range (3 * ts.length)).map
          (fun k => (is.length + k) % 2 ^ 16) := by
  intro ts
  induction ts with
  | nil => intro vs is; simp [draw_loop]
  | cons t rest ih =>
      intro vs is
      simp only [draw_loop]
      rw [ih]
      have hL : 3 * (t :: rest).length = 3 + 3 * rest.length := by
        simp only [List.length_cons]
        ring
      rw [hL, List.range_add, List.map_append, List.map_map,
        List.append_assoc]
      congr 1
      have h3 : List.range 3 = [0, 1, 2] := rfl
      rw [h3]
      simp only [List.map_cons, List.map_nil, Function.comp,
        List.length_append, List.length_cons, List.length_nil]
      congr 1
      · simp only [List.cons.injEq, and_true]
        omega
      · apply List.map_congr_left
        intro k _
        simp only [Function.comp_apply]
        omega

/-- The index array `draw_triangles` assembles: the sequence
`0, 1, ..., 3n - 1` reduced modulo `2 ^ 16` by the uint16 conversion. -/
lemma draw_triangles_indices (tw th : ℚ) (ts : List screen_triangle) :
    (draw_triangles tw th ts).2 =
      (List.range (3 * ts.length)).map (fun k => k % 2 ^ 16) := by
  rw [draw_triangles, draw_loop_indices]
  simp

/-- Below the uint16 limit the modulo is the identity and the index array
is exactly `range (3n)`. -/
lemma draw_triangles_indices_of_le (tw th : ℚ) (ts : List screen_triangle)
    (h : 3 * ts.length ≤ 2 ^ 16) :
    (draw_triangles tw th ts).2 = List.range (3 * ts.length) := by
  rw [draw_triangles_indices]
  conv_rhs => rw [← List.map_id (List.range (3 * ts.length))]
  apply List.map_congr_left
  intro k hk
  have hkl : k < 3 * ts.length := List.mem_range.mp hk
  have hk16 : k < 65536 := by
    have := lt_of_lt_of_le hkl h
    norm_num at this
    exact this
  simp [Nat.mod_eq_of_lt hk16]

/-- An example screen triangle for the draw-list theorems. -/
def ex_tri : screen_triangle := ⟨null_vertex, null_vertex, null_vertex, 0⟩

/-- C6 counterexample: with 21846 surviving triangles the index array is
not the strictly increasing sequence `0, ..., 3n - 1`: entry 65536 has
wrapped to 0. -/
theorem draw_triangles_indices_wrap_at_21846 :
    (draw_triangles 1 1 (List.replicate 21846 ex_tri)).2 ≠
      List.range (3 * (List.replicate 21846 ex_tri).length) := by
  intro h
  rw [draw_triangles_indices, List.length_replicate] at h
  have hlt : (65536 : ℕ) < 3 * 21846 := by norm_num
  have hlen : 65536 < ((List.range (3 * 21846)).map (fun k => k % 2 ^ 16)).length := by
    simp
  have hc := congrArg (fun l => l.getD 65536 0) h
  simp only at hc
  rw [List.getD_eq_getElem _ _ hlen,
    List.getD_eq_getElem _ _ (by simp)] at hc
  simp [List.getElem_map, List.getElem_range] at hc

/-- C6 (amended): for `n` surviving triangles `draw_triangles` appends
exactly `3n` vertices and `3n` indices, and as long as at most 21845
triangles survive (so that `3n` fits a uint16), the index array is exactly
the strictly increasing sequence `0, 1, ..., 3n - 1` in sequential
triples, sharing no index between triangles. -/
theorem draw_triangles_assembles_buffers (tw th : ℚ) (ts : List screen_triangle)
    (h : ts.length ≤ 21845) :
    (draw_triangles tw th ts).1.length = 3 * ts.length ∧
    (draw_triangles tw th ts).2 = List.range (3 * ts.length) := by
  constructor
  · rw [draw_triangles, draw_loop_vertices_length]
    simp
  · apply draw_triangles_indices_of_le
    norm_num
    omega

/-- Witness for C6 at a single triangle. -/
theorem draw_triangles_assembles_buffers_witness :
    (draw_triangles 1 1 [ex_tri]).1.length = 3 * ([ex_tri] : List screen_triangle).length ∧
    (draw_triangles 1 1 [ex_tri]).2 = List.range (3 * ([ex_tri] : List screen_triangle).length) :=
  draw_triangles_assembles_buffers 1 1 [ex_tri] (by decide)

/-- C10: the first index of each triple is `len(indices)` converted to
uint16, so the emitted indices are `k % 2 ^ 16` for `k < 3n`: they are
strictly increasing sequential exactly while `3n ≤ 2 ^ 16` (at most 21845
whole triangles), and with more surviving triangles the triples repeat
earlier values (entry 65536 equals entry 0 = 0) instead of increasing. -/
theorem draw_indices_uint16_wrap (tw th : ℚ) (ts : List screen_triangle) :
    (draw_triangles tw th ts).2 =
      (List.range (3 * ts.length)).map (fun k => k % 2 ^ 16) ∧
    (3 * ts.length ≤ 2 ^ 16 →
      (draw_triangles tw th ts).2 = List.range (3 * ts.length)) ∧
    (21845 < ts.length →
      (draw_triangles tw th ts).2.getD 0 1 = 0 ∧
      (draw_triangles tw th ts).2.getD (2 ^ 16) 1 = 0) := by
  refine ⟨draw_triangles_indices tw th ts,
    fun h => draw_triangles_indices_of_le tw th ts h, fun h => ?_⟩
  have h1 : 0 < 3 * ts.length := by omega
  have h2 : 2 ^ 16 < 3 * ts.length := by
    norm_num
    omega
  rw [draw_triangles_indices]
  constructor
  · rw [List.getD_eq_getElem _ _ (by simpa using h1)]
    simp [List.getElem_map, List.getElem_range]
  · rw [List.getD_eq_getElem _ _ (by simpa using h2)]
    simp [List.getElem_map, List.getElem_range]

/-- Witness for C10: a 1-triangle frame gets sequential indices, and a
21846-triangle frame wraps. -/
theorem draw_indices_uint16_wrap_witness :
    (draw_triangles 1 1 [ex_tri]).2 =
      List.range (3 * ([ex_tri] : List screen_triangle).length) ∧
    ((draw_triangles 1 1 (List.replicate 21846 ex_tri)).2.getD 0 1 = 0 ∧
     (draw_triangles 1 1 (List.replicate 21846 ex_tri)).2.getD (2 ^ 16) 1 = 0) :=
  ⟨(draw_indices_uint16_wrap 1 1 [ex_tri]).2.1 (by decide),
   (draw_indices_uint16_wrap 1 1 (List.replicate 21846 ex_tri)).2.2
     (by rw [List.length_replicate]; norm_num)⟩

lemma load_obj_loop_isOk : ∀ (recs : List obj_rec) (m : mesh),
    (load_obj_loop m recs).isOk = true ↔ obj_rec.bad ∉ recs := by
  intro recs
  induction recs with
  | nil => intro m; simp [load_obj_loop, Except.isOk, Except.toBool]
  | cons r rest ih =>
      intro m
      cases r with
      | skip => rw [load_obj_loop, ih]; simp
      | v x y z => rw [load_obj_loop, ih]; simp
      | vt s t => rw [load_obj_loop, ih]; simp
      | f a ta b tb c tc => rw [load_obj_loop, ih]; simp
      | bad =>
          rw [load_obj_loop]
          simp [Except.isOk, Except.toBool]

/-- C7 counterexample: a face record referencing point index 5 in a mesh
with no points at all loads successfully, storing the out-of-range index
4; `load_obj` does not validate indices. -/
theorem load_obj_accepts_out_of_range_index :
    load_obj [obj_rec.f 5 1 1 1 1 1] =
      Except.ok { triangles := [⟨4, 0, 0, 0, 0, 0⟩], points := [], texcoords := [] } ∧
    ¬ ((4 : ℕ) <
      ({ triangles := [⟨4, 0, 0, 0, 0, 0⟩], points := [], texcoords := [] } : mesh).points.length) := by
  constructor
  · rfl
  · decide

/-- C7 (amended): `load_obj` performs no index-bounds validation: loading
succeeds exactly when every record is well formed (no unknown record type
and no unparsable field), regardless of whether face indices are within
the point or texcoord counts, so out-of-range indices are not a load-time
error and do reach the per-frame pipeline. -/
theorem load_obj_ok_iff_records_wellformed (recs : List obj_rec) :
    (load_obj recs).isOk = true ↔ obj_rec.bad ∉ recs :=
  load_obj_loop_isOk recs _

/-- C8: interpolation at unit barycentric weights reproduces each vertex
exactly, and at arbitrary weights every attribute equals the linear
combination `u*A + v*B + w*C` of the three input vertices. -/
theorem interpolate_vertex_linear :
    (∀ v1 v2 v3 : vertex,
      interpolate_vertex v1 v2 v3 ⟨1, 0, 0⟩ = v1 ∧
      interpolate_vertex v1 v2 v3 ⟨0, 1, 0⟩ = v2 ∧
      interpolate_vertex v1 v2 v3 ⟨0, 0, 1⟩ = v3) ∧
    (∀ (v1 v2 v3 : vertex) (f : Vec3),
      (interpolate_vertex v1 v2 v3 f).position =
        ((v1.position.mul f.x).add (v2.position.mul f.y)).add
          (v3.position.mul f.z) ∧
      (interpolate_vertex v1 v2 v3 f).texcoord =
        ((v1.texcoord.mul f.x).add (v2.texcoord.mul f.y)).add
          (v3.texcoord.mul f.z)) := by
  constructor
  · intro v1 v2 v3
    obtain ⟨⟨a1, a2, a3, a4⟩, ⟨a5, a6⟩⟩ := v1
    obtain ⟨⟨b1, b2, b3, b4⟩, ⟨b5, b6⟩⟩ := v2
    obtain ⟨⟨c1, c2, c3, c4⟩, ⟨c5, c6⟩⟩ := v3
    refine ⟨?_, ?_, ?_⟩ <;>
      simp [interpolate_vertex, interpolate_vec4, interpolate_vec2,
        Vec4.add, Vec4.mul, Vec4.zero, Vec2.add, Vec2.mul, Vec2.zero]
  · intro v1 v2 v3 f
    constructor <;>
      simp [interpolate_vertex, interpolate_vec4, interpolate_vec2,
        Vec4.add, Vec4.mul, Vec4.zero, Vec2.add, Vec2.mul, Vec2.zero]

lemma mem_clip_loop_calls (p : plane) :
    ∀ (l : List Vec4) (s : Vec4) (q : Vec4 × Vec4),
      q ∈ clip_loop_calls p s l → p.test q.1 ≠ p.test q.2 := by
  intro l
  induction l with
  | nil => intro s q h; simp [clip_loop_calls] at h
  | cons e rest ih =>
      intro s q h
      rw [clip_loop_calls] at h
      rcases List.mem_append.mp h with h1 | h2
      · cases he : p.test e <;> cases hs : p.test s <;>
          simp [he, hs] at h1 <;> subst h1 <;> simp [he, hs]
      · exact ih e q h2

lemma mem_clip_plane_calls (p : plane) (l : List Vec4) (q : Vec4 × Vec4)
    (h : q ∈ clip_plane_calls p l) : p.test q.1 ≠ p.test q.2 := by
  unfold clip_plane_calls at h
  cases hl : l.getLast? with
  | none => rw [hl] at h; simp at h
  | some s0 =>
      rw [hl] at h
      exact mem_clip_loop_calls p l s0 q h

lemma mem_sh_calls :
    ∀ (ps : List plane) (out : List Vec4) (pl : plane) (s e : Vec4),
      (pl, s, e) ∈ sh_calls ps out → pl.test s ≠ pl.test e := by
  intro ps
  induction ps with
  | nil => intro out pl s e h; simp [sh_calls] at h
  | cons p rest ih =>
      intro out pl s e h
      rw [sh_calls] at h
      by_cases ho : out = []
      · rw [if_pos ho] at h; simp at h
      · rw [if_neg ho] at h
        rcases List.mem_append.mp h with h1 | h2
        · rcases List.mem_map.mp h1 with ⟨q, hq, hpq⟩
          simp only [Prod.mk.injEq] at hpq
          obtain ⟨h1a, h1b⟩ := hpq
          subst h1a
          subst h1b
          exact mem_clip_plane_calls p out (s, e) hq
        · exact ih (clip_against_plane p out) pl s e h2

lemma test_ne_imp_denom_ne_zero (pl : plane) (s e : Vec4)
    (h : pl.test s ≠ pl.test e) : pl.normal.dot (e.sub s) ≠ 0 := by
  have key : pl.normal.dot (e.sub s) =
      (e.sub pl.origin).dot pl.normal - (s.sub pl.origin).dot pl.normal := by
    simp only [Vec4.dot, Vec4.sub]
    ring
  cases hs : pl.test s <;> cases he : pl.test e
  · exact absurd (hs.trans he.symm) h
  · rw [plane.test, decide_eq_false_iff_not, not_lt] at hs
    rw [plane.test, decide_eq_true_eq] at he
    rw [key]
    intro h0
    linarith
  · rw [plane.test, decide_eq_true_eq] at hs
    rw [plane.test, decide_eq_false_iff_not, not_lt] at he
    rw [key]
    intro h0
    linarith
  · exact absurd (hs.trans he.symm) h

/-- C9: every `plane.intersection` call made inside
`sutherland_hodgman_3d` is on an edge whose endpoints disagree on the
plane test, and for such an edge the division denominator
`normal ⬝ (e - s)` is nonzero, so the unguarded division never divides by
zero. -/
theorem intersection_calls_cross_plane (p1 p2 p3 : Vec4) (pl : plane)
    (s e : Vec4)
    (h : (pl, s, e) ∈ sutherland_hodgman_calls p1 p2 p3) :
    pl.test s ≠ pl.test e ∧ pl.normal.dot (e.sub s) ≠ 0 := by
  have ht := mem_sh_calls clip_planes [p1, p2, p3] pl s e h
  exact ⟨ht, test_ne_imp_denom_ne_zero pl s e ht⟩

/-- The intersection calls of the clip example: both are made by the
right plane, on the two edges that cross it. -/
lemma sutherland_calls_example :
    sutherland_hodgman_calls exV1.position exV2.position exV3.position =
      [(plane_right, exV3.position, exV1.position),
       (plane_right, exV1.position, exV2.position)] := by
  norm_num [exV1, exV2, exV3, sutherland_hodgman_calls, clip_planes, sh_calls,
    clip_plane_calls, clip_loop_calls, clip_against_plane, clip_loop,
    clip_edge_out, plane.test, plane.intersection, plane_right, plane_left,
    plane_bottom, plane_top, plane_front, plane_back, Vec4.sub, Vec4.dot,
    Vec4.add, Vec4.mul, List.getLast?]
  simp

/-- Witness for C9 at a concrete crossing edge of the clip example. -/
theorem intersection_calls_cross_plane_witness :
    plane_right.test exV3.position ≠ plane_right.test exV1.position ∧
    plane_right.normal.dot (exV1.position.sub exV3.position) ≠ 0 :=
  intersection_calls_cross_plane exV1.position exV2.position exV3.position
    plane_right exV3.position exV1.position
    (by rw [sutherland_calls_example]; exact List.mem_cons_self _ _)
